import Mathlib

/-!
Verification development for the `analytics` package
(`src/system/api/analytics/init.go`): a shallow embedding of the event
recorder (`Record`) and of the trailing-14-day aggregator (`ChartData`),
together with theorems settling the specification claims about them.

Modelling conventions:
* Go `time.Time` values that matter here are always whole seconds, so an
  instant is an `Int` of seconds since the Unix epoch; `After`/`Equal`/
  `Before` become `<`/`=`/`>` on `Int`.
* Go `int64` arithmetic on timestamps stays far from overflow, so `Int`
  models it directly; Go's integer division (which truncates toward zero)
  is `Int.tdiv`.
* The store read and the output encoding are parameters of `ChartData`
  (the storage engine and JSON encoding are external collaborators).
-/

set_option maxHeartbeats 1000000

/-- Go struct `apiRequest` (init.go:17-25): one recorded API request.
`Timestamp` is milliseconds since epoch. -/
structure apiRequest where
  URL : String
  Method : String
  Origin : String
  Proto : String
  RemoteAddr : String
  Timestamp : Int
  External : Bool
  deriving DecidableEq

/-- The part of a `net/http` `Request` that `Record` reads: `URL.Path`,
`URL.String()`, `Method`, the `Origin` header, `Proto`, `RemoteAddr`. -/
structure httpRequest where
  urlPath : String
  urlString : String
  method : String
  originHeader : String
  proto : String
  remoteAddr : String
  deriving DecidableEq

/-- Substring search on character lists: `pat` is a prefix of some suffix of
the text.  This is the semantics of Go `strings.Contains`. -/
def containsSeq (pat : List Char) : List Char → Bool
  | [] => pat.isEmpty
  | c :: cs => pat.isPrefixOf (c :: cs) || containsSeq pat cs

/-- Go `strings.Contains(s, pat)` (used at init.go:34). -/
def goContains (s pat : String) : Bool := containsSeq pat.data s.data

/-- `Record` (init.go:33-48): builds the `apiRequest` that is enqueued for
batch insertion.  `nowUnixSec` is the whole-seconds clock reading
`time.Now().Unix()`; the code stamps `Timestamp = time.Now().Unix() * 1000`
and `External = strings.Contains(req.URL.Path, "/external/")`. -/
def Record (req : httpRequest) (nowUnixSec : Int) : apiRequest :=
  { URL := req.urlString
    Method := req.method
    Origin := req.originHeader
    Proto := req.proto
    RemoteAddr := req.remoteAddr
    Timestamp := nowUnixSec * 1000
    External := goContains req.urlPath "/external/" }

/-- Modelled from the spec: the path-PREFIX check that §4.1 of the spec
describes for the `external` flag (the request path starts with the external
route marker).  Kept separate from the source-derived `Record` so the two
can be compared. -/
def specPrefixExternal (path : String) : Bool :=
  "/external/".data.isPrefixOf path.data

/-- A request whose path contains the external route marker in the middle,
not at the front. -/
def c5Request : httpRequest :=
  { urlPath := "/api/external/posts"
    urlString := "/api/external/posts?count=10"
    method := "GET"
    originHeader := ""
    proto := "HTTP/1.1"
    remoteAddr := "10.0.0.1:4000" }

/-!  The proleptic Gregorian calendar, as Go's `time` package implements it.

`civilFromDays` maps a count of days since 1970-01-01 to the calendar date
`(year, month, day)` and `daysFromCivil` is its inverse; both follow the
standard era/day-of-era decomposition over the 400-year Gregorian cycle,
which agrees with Go's `Time.Date` / `time.Date` on every instant.  All
divisions below act on non-negative operands (the era shift makes them so),
where floor division `Int.fdiv` agrees with Go's arithmetic. -/

/-- Calendar date `(year, month, day)` of day number `z` (days since the
Unix epoch, negative allowed). -/
def civilFromDays (z : Int) : Int × Int × Int :=
  let z' := z + 719468
  let era := z'.fdiv 146097
  let doe := z' - era * 146097
  let yoe := (doe - doe.fdiv 1460 + doe.fdiv 36524 - doe.fdiv 146096).fdiv 365
  let y := yoe + era * 400
  let doy := doe - (365 * yoe + yoe.fdiv 4 - yoe.fdiv 100)
  let mp := (5 * doy + 2).fdiv 153
  let d := doy - (153 * mp + 2).fdiv 5 + 1
  let m := mp + (if mp < 10 then 3 else -9)
  (y + (if m ≤ 2 then 1 else 0), m, d)

/-- Day number (days since the Unix epoch) of the calendar date
`(y, m, d)`; inverse of `civilFromDays`. -/
def daysFromCivil (y m d : Int) : Int :=
  let y' := y - (if m ≤ 2 then 1 else 0)
  let era := y'.fdiv 400
  let yoe := y' - era * 400
  let doy := (153 * (m + (if 2 < m then -3 else 9)) + 2).fdiv 5 + d - 1
  let doe := yoe * 365 + yoe.fdiv 4 - yoe.fdiv 100 + doy
  era * 146097 + doe - 719468

/-- Two-digit zero-padded decimal, the `01` / `02` fields of Go's reference
layout (months and days are always in `1..31`). -/
def pad2 (n : Int) : String :=
  if n < 10 then "0" ++ toString n else toString n

/-- `day.Format("01/02")` (init.go:135): the `MM/DD` label of the day that
contains the instant `t` (seconds since epoch, UTC). -/
def fmtMMDD (t : Int) : String :=
  let c := civilFromDays (t.fdiv 86400)
  pad2 c.2.1 ++ "/" ++ pad2 c.2.2

/-- The `today` instant of `ChartData` (init.go:125-126):
`now := time.Now()` carries the process-local time zone, whose offset at
that instant is `offSec`; `now.Year()`, `now.Month()`, `now.Day()` are the
LOCAL calendar date, i.e. the civil date of day number
`(now + offSec).fdiv 86400`; `time.Date(y, m, d, 0, 0, 0, 0, time.UTC)`
then rebuilds 00:00 UTC of that local date. -/
def goToday (nowSec offSec : Int) : Int :=
  let c := civilFromDays ((nowSec + offSec).fdiv 86400)
  86400 * daysFromCivil c.1 c.2.1 c.2.2

/-- Modelled from the spec: "UTC midnight of the current instant" (§4.5),
the most recent 00:00 UTC not after the instant. -/
def utcMidnight (nowSec : Int) : Int := 86400 * (nowSec.fdiv 86400)

/-- The 14 day boundaries of `ChartData` (init.go:123-136): the loop sets
`times[13-i] = today - 24·i hours`, so `times[j] = today - (13-j)·86400`,
ordered oldest first with `times[13] = today`. -/
def chartTimes (today : Int) (j : Fin 14) : Int :=
  today - 86400 * (13 - (j.val : Int))

/-- The 14 `MM/DD` labels (init.go:135), parallel to `chartTimes`. -/
def chartDates (today : Int) (j : Fin 14) : String :=
  fmtMMDD (chartTimes today j)

/-!  The aggregation loop (init.go:165-223). -/

/-- The mutable aggregation state of `ChartData`: the `total` and `unique`
counter arrays and the per-bucket sets `ips` of caller addresses already
seen (init.go:165-171). -/
structure AggState where
  total : Fin 14 → Nat
  unique : Fin 14 → Nat
  ips : Fin 14 → Finset String

/-- `total`, `unique` and every `ips[i]` start empty (init.go:165-171). -/
def initState : AggState :=
  { total := fun _ => 0, unique := fun _ => 0, ips := fun _ => ∅ }

/-- The second-resolution timestamp the loop compares against the day
boundaries: `ts := time.Unix(requests[i].Timestamp/1000, 0)` (init.go:175);
Go division truncates toward zero. -/
def tsOf (r : apiRequest) : Int := r.Timestamp.tdiv 1000

/-- The "do all record keeping" block (init.go:182-188, repeated at 194-204
and 213-220): counting request `r` into bucket `b` increments `total[b]`
and, when `r`'s address is new to the bucket, increments `unique[b]` and
records the address in `ips[b]`. -/
def addHit (r : apiRequest) (s : AggState) (b : Fin 14) : AggState :=
  if r.RemoteAddr ∈ s.ips b then
    { s with total := Function.update s.total b (s.total b + 1) }
  else
    { total := Function.update s.total b (s.total b + 1)
      unique := Function.update s.unique b (s.unique b + 1)
      ips := Function.update s.ips b (insert r.RemoteAddr (s.ips b)) }

/-- The inner `for j := range times` loop of `ChartData` (init.go:177-222),
as the list of buckets it counts the request into, in the order the code
increments them.  `j` is the loop index, `fuel` the remaining iterations
(14 at entry, so fuel never runs out before `j` reaches 14).  Branches:
* `j = 13` and `ts` after-or-equal `times[13]`: count into 13 and
  `continue CHECK_REQUEST` (init.go:180-192);
* `ts = times[j]`: count into `j` and `continue CHECK_REQUEST`
  (init.go:194-205);
* `ts < times[j]` with `j = 0`: out of the window, `continue CHECK_REQUEST`
  (init.go:209-211);
* `ts < times[j]` with `j > 0`: count into `j-1` and — the source has no
  `continue` here — fall through to the next loop iteration
  (init.go:213-221);
* otherwise: next loop iteration. -/
def checkFromAux (times : Fin 14 → Int) (t : Int) : Nat → Nat → List (Fin 14)
  | 0, _ => []
  | fuel + 1, j =>
    if hj : j < 14 then
      if j = 13 ∧ times ⟨13, by omega⟩ ≤ t then [⟨13, by omega⟩]
      else if t = times ⟨j, hj⟩ then [⟨j, hj⟩]
      else if t < times ⟨j, hj⟩ then
        if j = 0 then []
        else ⟨j - 1, by omega⟩ :: checkFromAux times t fuel (j + 1)
      else checkFromAux times t fuel (j + 1)
    else []

/-- The buckets one request is counted into, scanning `j = 0, …, 13`
(label `CHECK_REQUEST`, init.go:173). -/
def checkRequest (times : Fin 14 → Int) (t : Int) : List (Fin 14) :=
  checkFromAux times t 14 0

/-- One iteration of the outer `for i := range requests` loop: the branch
conditions of the inner loop depend only on the timestamp, never on the
counters, so the iteration is the bookkeeping `addHit` applied to each
bucket the scan selects, in scan order. -/
def processRequest (times : Fin 14 → Int) (s : AggState) (r : apiRequest) : AggState :=
  (checkRequest times (tsOf r)).foldl (addHit r) s

/-- The whole aggregation loop (init.go:173-223) over the decoded requests
in store order. -/
def aggregate (times : Fin 14 → Int) (requests : List apiRequest) : AggState :=
  requests.foldl (processRequest times) initState

/-- The map `ChartData` returns (init.go:235-241): keys `dates`, `unique`,
`total`, `from`, `to` (`from`/`to` are spelled `fromLabel`/`toLabel`). -/
structure ChartResult where
  dates : List String
  unique : String
  total : String
  fromLabel : String
  toLabel : String
  deriving DecidableEq

/-- `ChartData` (init.go:121-242).  `nowSec`/`offSec` are the clock reading
and local-zone offset behind `time.Now()`; `view` is the outcome of the
read transaction on the `requests` bucket, one entry per stored value with
`none` for a value `json.Unmarshal` rejects (such entries are logged and
skipped, init.go:143-154, and never fail the scan); `marshal` is
`json.Marshal` on a 14-element counter series.  A failed `view` and a
failed `marshal` each abort with the error and no result
(init.go:161-163, 225-233). -/
def ChartData (nowSec offSec : Int)
    (view : Except String (List (Option apiRequest)))
    (marshal : List Nat → Except String String) :
    Except String ChartResult :=
  let today := goToday nowSec offSec
  let times := chartTimes today
  let dates := fun j : Fin 14 => chartDates today j
  match view with
  | Except.error e => Except.error e
  | Except.ok entries =>
    let requests := entries.filterMap id
    let s := aggregate times requests
    match marshal (List.ofFn fun j => s.unique j) with
    | Except.error e => Except.error e
    | Except.ok jsUnique =>
      match marshal (List.ofFn fun j => s.total j) with
      | Except.error e => Except.error e
      | Except.ok jsTotal =>
        Except.ok
          { dates := List.ofFn dates
            unique := jsUnique
            total := jsTotal
            fromLabel := dates 0
            toLabel := dates 13 }

/-- A concrete stand-in for `json.Marshal` on a counter series, used to
instantiate `ChartData` on sample inputs. -/
def renderCounts (l : List Nat) : Except String String :=
  Except.ok (toString l)

/-!  C1 / C2: a record strictly inside a past day cascades through the
buckets.  With `today = 1123200` (1970-01-14 00:00 UTC) the boundaries are
`times[j] = 86400·j`, j = 0, …, 13. -/

/-- A record at 1970-01-01 02:00 UTC, strictly between the boundaries
`times[0] = 0` and `times[1] = 86400`. -/
def c1Request : apiRequest :=
  { URL := "/api/posts"
    Method := "GET"
    Origin := ""
    Proto := "HTTP/1.1"
    RemoteAddr := "203.0.113.7:5000"
    Timestamp := 7200000
    External := false }

/-- A record at 1970-01-01 01:00 UTC, inside the window's first day. -/
def c2Request : apiRequest :=
  { URL := "/api/contents"
    Method := "GET"
    Origin := ""
    Proto := "HTTP/1.1"
    RemoteAddr := "198.51.100.9:6000"
    Timestamp := 3600000
    External := false }

/-- The buckets one request is counted into. -/
def hitsOf (times : Fin 14 → Int) (r : apiRequest) : List (Fin 14) :=
  checkRequest times (tsOf r)

/-- The record occurrences the loop counts into bucket `j`. -/
def occurrences (times : Fin 14 → Int) (reqs : List apiRequest) (j : Fin 14) :
    List apiRequest :=
  reqs.filter (fun r => decide (j ∈ hitsOf times r))

/-- One record per window day, stamped exactly at that day's midnight
boundary (in milliseconds), with caller address `addrs j`. -/
def midnightRequest (today : Int) (addrs : Fin 14 → String) (j : Fin 14) : apiRequest :=
  { URL := "/api/posts"
    Method := "GET"
    Origin := ""
    Proto := "HTTP/1.1"
    RemoteAddr := addrs j
    Timestamp := chartTimes today j * 1000
    External := false }

/-- The record set of claim C6: one midnight record per window day. -/
def midnightRequests (today : Int) (addrs : Fin 14 → String) : List apiRequest :=
  (List.finRange 14).map (midnightRequest today addrs)

/-- The result `ChartData` produces on 1970-01-14 (UTC zone) with an empty
store: fourteen labels 01/01 … 01/14, all counters zero. -/
def sampleChart : ChartResult :=
  { dates := ["01/01", "01/02", "01/03", "01/04", "01/05", "01/06", "01/07",
              "01/08", "01/09", "01/10", "01/11", "01/12", "01/13", "01/14"]
    unique := "[0, 0, 0, 0, 0, 0, 0, 0, 0, 0, 0, 0, 0, 0]"
    total := "[0, 0, 0, 0, 0, 0, 0, 0, 0, 0, 0, 0, 0, 0]"
    fromLabel := "01/01"
    toLabel := "01/14" }

/-- C5 counterexample: on the path `/api/external/posts` the recorder sets
`External = true` (the path contains `/external/`), while the spec's
path-prefix check is false, so `External` is not determined by a prefix
check. -/
theorem Record_external_not_prefix_check :
    ¬ ((Record c5Request 0).External = specPrefixExternal c5Request.urlPath) := by
  decide

/-- Correctness of the substring search: it answers exactly list infixhood. -/
lemma containsSeq_iff_infix (pat : List Char) :
    ∀ s : List Char, containsSeq pat s = true ↔ pat <:+: s := by
  intro s
  induction s with
  | nil =>
    simp [containsSeq, List.isEmpty_iff, List.infix_nil]
  | cons c cs ih =>
    simp [containsSeq, List.infix_cons_iff, ih, List.isPrefixOf_iff_prefix]

/-- C5 amended: `Record` sets `External` to true exactly when the request
path contains the substring `/external/` anywhere (a substring check, not a
prefix check). -/
theorem Record_external_iff_contains (req : httpRequest) (nowUnixSec : Int) :
    (Record req nowUnixSec).External = true ↔ "/external/".data <:+: req.urlPath.data := by
  simpa [Record, goContains] using containsSeq_iff_infix "/external/".data req.urlPath.data

/-- C10: every record built by `Record` carries a `Timestamp` that is an
exact multiple of 1000: it is `time.Now().Unix() * 1000`, whole seconds
re-expressed in milliseconds, so the sub-second part of the enqueue instant
is always discarded. -/
theorem Record_timestamp_whole_seconds (req : httpRequest) (nowUnixSec : Int) :
    (1000 : Int) ∣ (Record req nowUnixSec).Timestamp :=
  ⟨nowUnixSec, by simp [Record, Int.mul_comm]⟩

/-- C4 counterexample: with the process in a zone two hours east of UTC
(offset 7200 s) at instant 82800 (1970-01-01 23:00 UTC, local date already
1970-01-02), `ChartData`'s `today` is 86400 (1970-01-02 00:00 UTC), not the
UTC midnight of the current instant, which is 0. -/
theorem goToday_not_utc_midnight :
    goToday 82800 7200 ≠ utcMidnight 82800 := by decide

/-- C1 evaluated at the failing input: the record's timestamp lies strictly
between `times[0]` and `times[1]`, yet the loop counts it into buckets
0 through 12 — thirteen total counters are incremented, not exactly one.
(The `ts < times[j]` branch at init.go:207-221 lacks a
`continue CHECK_REQUEST`, so after counting into bucket `j-1` the scan
keeps running and counts into every later bucket up to 12.) -/
theorem ChartData_between_boundaries_cascades :
    chartTimes 1123200 0 * 1000 < c1Request.Timestamp ∧
    c1Request.Timestamp < chartTimes 1123200 1 * 1000 ∧
    List.ofFn (fun j => (aggregate (chartTimes 1123200) [c1Request]).total j)
      = [1, 1, 1, 1, 1, 1, 1, 1, 1, 1, 1, 1, 1, 0] := by
  refine ⟨by decide, by decide, by decide⟩

/-- C2 evaluated at the failing input: the only stored record falls on the
window's day 0, so day 5 has no records, yet the `total` series `Report`
returns carries a 1 at index 5 (and at every index 1-12): a count for a day
with no records is not zero.  The cascade of init.go:207-221 is the cause. -/
theorem ChartData_empty_day_nonzero_count :
    chartTimes 1123200 0 * 1000 ≤ c2Request.Timestamp ∧
    c2Request.Timestamp < chartTimes 1123200 1 * 1000 ∧
    (ChartData 1123200 0 (Except.ok [some c2Request]) renderCounts).toOption.map
        (fun r => r.total)
      = some "[1, 1, 1, 1, 1, 1, 1, 1, 1, 1, 1, 1, 1, 0]" := by
  refine ⟨by decide, by decide, rfl⟩

/-!  C3: records strictly before the earliest boundary are discarded. -/

/-- Truncating division by 1000 respects a strict upper bound given by a
whole multiple of 1000, for non-negative dividends. -/
lemma tdiv_1000_lt (a b : Int) (h0 : 0 ≤ a) (h : a < b * 1000) : a.tdiv 1000 < b := by
  have h1 : 1000 * (a.tdiv 1000) + a.tmod 1000 = a := Int.tdiv_add_tmod a 1000
  have h2 : 0 ≤ a.tmod 1000 := Int.tmod_nonneg 1000 h0
  have h3 : a.tmod 1000 < 1000 := by
    have := Int.tmod_lt_of_pos a (b := 1000) (by norm_num)
    omega
  omega

/-- A timestamp strictly below the earliest boundary leaves the scan on its
very first iteration (`ts.Before(times[0])` with `j = 0`, init.go:209-211):
no bucket is selected. -/
lemma checkFromAux_before_first (times : Fin 14 → Int) (t : Int) (fuel : Nat)
    (h : t < times 0) : checkFromAux times t (fuel + 1) 0 = [] := by
  have hne : t ≠ times 0 := ne_of_lt h
  simp [checkFromAux, hne, h]

/-- C3: a record whose (non-negative) millisecond timestamp is strictly
before the earliest boundary `times[0]` is excluded entirely: the scan
selects no bucket, and processing the record leaves every `total`,
`unique` and `ips` cell unchanged (in particular no out-of-range index is
touched — every selected bucket is a `Fin 14` by construction). -/
theorem ChartData_discards_pre_window (today : Int) (s : AggState) (r : apiRequest)
    (h0 : 0 ≤ r.Timestamp) (hold : r.Timestamp < chartTimes today 0 * 1000) :
    checkRequest (chartTimes today) (tsOf r) = [] ∧
    processRequest (chartTimes today) s r = s := by
  have hts : tsOf r < chartTimes today 0 := tdiv_1000_lt _ _ h0 hold
  have hc : checkRequest (chartTimes today) (tsOf r) = [] :=
    checkFromAux_before_first (chartTimes today) (tsOf r) 13 hts
  exact ⟨hc, by simp [processRequest, hc]⟩

/-- Witness for C3: with `today = 1970-01-15` (boundary `times[0] = 86400`)
a record stamped 1 second after the epoch is discarded. -/
theorem ChartData_discards_pre_window_w :
    checkRequest (chartTimes 1209600) (tsOf (Record c5Request 1)) = [] ∧
    processRequest (chartTimes 1209600) initState (Record c5Request 1) = initState :=
  ChartData_discards_pre_window 1209600 initState (Record c5Request 1)
    (by decide) (by decide)

/-!  What one pass of the scan selects, and what the bookkeeping does with
it.  These lemmas relate `aggregate` to the per-bucket lists of record
occurrences, for an arbitrary boundary vector. -/

/-- The buckets the scan (started at index `j`) selects all have index at
least `j - 1`. -/
lemma mem_checkFromAux_ge (times : Fin 14 → Int) (t : Int) :
    ∀ fuel j i, i ∈ checkFromAux times t fuel j → j ≤ i.val + 1 := by
  intro fuel
  induction fuel with
  | zero =>
    intro j i hi
    simp [checkFromAux] at hi
  | succ n ih =>
    intro j i hi
    rw [checkFromAux] at hi
    split at hi
    · split at hi
      · simp at hi
        subst hi
        show j ≤ 13 + 1
        omega
      · split at hi
        · simp at hi
          subst hi
          show j ≤ j + 1
          omega
        · split at hi
          · split at hi
            · simp at hi
            · rcases List.mem_cons.mp hi with h | h
              · subst h
                show j ≤ j - 1 + 1
                omega
              · have := ih (j + 1) i h
                omega
          · have := ih (j + 1) i hi
            omega
    · simp at hi

/-- The scan never selects the same bucket twice: the selected indices are
produced in strictly increasing order. -/
lemma nodup_checkFromAux (times : Fin 14 → Int) (t : Int) :
    ∀ fuel j, (checkFromAux times t fuel j).Nodup := by
  intro fuel
  induction fuel with
  | zero => intro j; simp [checkFromAux]
  | succ n ih =>
    intro j
    rw [checkFromAux]
    split
    · split
      · simp
      · split
        · simp
        · split
          · split
            · simp
            · refine List.nodup_cons.mpr ⟨?_, ih (j + 1)⟩
              intro hmem
              have h2 : j + 1 ≤ (j - 1) + 1 :=
                mem_checkFromAux_ge times t n (j + 1) _ hmem
              omega
          · exact ih (j + 1)
    · simp

/-- Counting a request into bucket `b` adds one to `total[b]`. -/
lemma addHit_total_self (r : apiRequest) (s : AggState) (b : Fin 14) :
    (addHit r s b).total b = s.total b + 1 := by
  unfold addHit
  split <;> simp

/-- Counting a request into bucket `b` leaves `total[c]`, `c ≠ b`, alone. -/
lemma addHit_total_ne (r : apiRequest) (s : AggState) (b c : Fin 14) (h : c ≠ b) :
    (addHit r s b).total c = s.total c := by
  unfold addHit
  split <;> simp [Function.update_noteq h]

/-- Counting a request into bucket `b` makes `ips[b]` contain exactly the
old addresses plus the request's address. -/
lemma addHit_ips_self (r : apiRequest) (s : AggState) (b : Fin 14) :
    (addHit r s b).ips b = insert r.RemoteAddr (s.ips b) := by
  unfold addHit
  split
  · rename_i hmem
    simp [Finset.insert_eq_self.mpr hmem]
  · simp

/-- Counting a request into bucket `b` leaves `ips[c]`, `c ≠ b`, alone. -/
lemma addHit_ips_ne (r : apiRequest) (s : AggState) (b c : Fin 14) (h : c ≠ b) :
    (addHit r s b).ips c = s.ips c := by
  unfold addHit
  split <;> simp [Function.update_noteq h]

/-- The bookkeeping keeps `unique[c]` equal to the size of `ips[c]`: the
unique counter is incremented exactly when a new address enters the set. -/
lemma addHit_unique_card (r : apiRequest) (s : AggState) (b c : Fin 14)
    (h : s.unique c = (s.ips c).card) :
    (addHit r s b).unique c = ((addHit r s b).ips c).card := by
  unfold addHit
  split
  · rename_i hmem
    by_cases hc : c = b
    · subst hc
      simpa using h
    · simpa [Function.update_noteq hc] using h
  · rename_i hmem
    by_cases hc : c = b
    · subst hc
      simp [Finset.card_insert_of_not_mem hmem, h]
    · simpa [Function.update_noteq hc] using h

/-- Folding the bookkeeping over a duplicate-free bucket list adds one to
`total[j]` exactly when `j` is in the list. -/
lemma foldl_addHit_total (r : apiRequest) :
    ∀ (L : List (Fin 14)) (s : AggState) (j : Fin 14), L.Nodup →
      (L.foldl (addHit r) s).total j
        = if j ∈ L then s.total j + 1 else s.total j := by
  intro L
  induction L with
  | nil => intro s j _; simp
  | cons b L ih =>
    intro s j hnd
    rcases List.nodup_cons.mp hnd with ⟨hb, hnd'⟩
    rw [List.foldl_cons, ih _ j hnd']
    by_cases hj : j = b
    · subst hj
      simp [hb, addHit_total_self]
    · simp [hj, addHit_total_ne r s b j hj]

/-- Folding the bookkeeping over a duplicate-free bucket list inserts the
request's address into `ips[j]` exactly when `j` is in the list. -/
lemma foldl_addHit_ips (r : apiRequest) :
    ∀ (L : List (Fin 14)) (s : AggState) (j : Fin 14), L.Nodup →
      (L.foldl (addHit r) s).ips j
        = if j ∈ L then insert r.RemoteAddr (s.ips j) else s.ips j := by
  intro L
  induction L with
  | nil => intro s j _; simp
  | cons b L ih =>
    intro s j hnd
    rcases List.nodup_cons.mp hnd with ⟨hb, hnd'⟩
    rw [List.foldl_cons, ih _ j hnd']
    by_cases hj : j = b
    · subst hj
      simp [hb, addHit_ips_self]
    · simp [hj, addHit_ips_ne r s b j hj]

/-- Folding the bookkeeping preserves `unique[j] = |ips[j]|` in every
bucket. -/
lemma foldl_addHit_unique_card (r : apiRequest) :
    ∀ (L : List (Fin 14)) (s : AggState),
      (∀ j, s.unique j = (s.ips j).card) →
      ∀ j, (L.foldl (addHit r) s).unique j = ((L.foldl (addHit r) s).ips j).card := by
  intro L
  induction L with
  | nil => intro s h j; simpa using h j
  | cons b L ih =>
    intro s h j
    rw [List.foldl_cons]
    exact ih _ (fun c => addHit_unique_card r s b c (h c)) j

/-- What the aggregation loop computes, bucket by bucket: `total[j]` is the
number of occurrences counted into `j`, `ips[j]` is the set of their
addresses, and `unique[j]` is the size of that set. -/
lemma aggregate_spec (times : Fin 14 → Int) (reqs : List apiRequest) :
    (∀ j, (aggregate times reqs).total j = (occurrences times reqs j).length) ∧
    (∀ j, (aggregate times reqs).ips j
        = ((occurrences times reqs j).map (fun r => r.RemoteAddr)).toFinset) ∧
    (∀ j, (aggregate times reqs).unique j = ((aggregate times reqs).ips j).card) := by
  induction reqs using List.reverseRecOn with
  | nil =>
    refine ⟨fun j => rfl, fun j => rfl, fun j => rfl⟩
  | append_singleton l r ih =>
    obtain ⟨iht, ihi, ihu⟩ := ih
    have hagg : aggregate times (l ++ [r])
        = (hitsOf times r).foldl (addHit r) (aggregate times l) := by
      simp [aggregate, List.foldl_append, processRequest, hitsOf]
    have hocc : ∀ j, occurrences times (l ++ [r]) j
        = occurrences times l j ++ if j ∈ hitsOf times r then [r] else [] := by
      intro j
      by_cases hj : j ∈ hitsOf times r <;>
        simp [occurrences, List.filter_append, hj]
    have hnd : (hitsOf times r).Nodup := nodup_checkFromAux times (tsOf r) 14 0
    refine ⟨?_, ?_, ?_⟩
    · intro j
      rw [hagg, foldl_addHit_total r _ _ j hnd, hocc j]
      by_cases hj : j ∈ hitsOf times r <;> simp [hj, iht j]
    · intro j
      rw [hagg, foldl_addHit_ips r _ _ j hnd, hocc j]
      by_cases hj : j ∈ hitsOf times r
      · simp [hj, ihi j, Finset.insert_eq, Finset.union_comm]
      · simp [hj, ihi j]
    · intro j
      rw [hagg]
      exact foldl_addHit_unique_card r _ _ ihu j

/-- The day boundaries are strictly increasing (24 h apart, oldest
first). -/
lemma chartTimes_strictMono (today : Int) : StrictMono (chartTimes today) := by
  intro a b hab
  have h : a.val < b.val := hab
  simp only [chartTimes]
  omega

/-- When the timestamp equals boundary `jj` exactly, the scan (started at
any `j ≤ jj` with enough iterations left) selects bucket `jj` and nothing
else: every earlier boundary is strictly below the timestamp, and at `jj`
either the last-bucket `≥` test (init.go:180-192) or the equality test
(init.go:194-205) fires and leaves the loop. -/
lemma checkFromAux_eq_single (times : Fin 14 → Int) (hmono : StrictMono times)
    (jj : Fin 14) :
    ∀ fuel j, 14 ≤ fuel + j → j ≤ jj.val →
      checkFromAux times (times jj) fuel j = [jj] := by
  intro fuel
  induction fuel with
  | zero =>
    intro j h1 h2
    exfalso
    have := jj.isLt
    omega
  | succ n ih =>
    intro j h1 h2
    have hj : j < 14 := by
      have := jj.isLt
      omega
    rw [checkFromAux]
    rw [dif_pos hj]
    split_ifs with hlast heq hbefore hzero
    · -- the `≥ times[13]` test fired: here `j = 13`, hence `jj = 13`.
      have hjj : jj = ⟨13, by omega⟩ := by
        apply Fin.ext
        show jj.val = 13
        omega
      rw [hjj]
    · -- the equality test fired: `jj` is the boundary with this value.
      have hjj : jj = ⟨j, hj⟩ := hmono.injective heq
      rw [hjj]
    · -- `times jj < times ⟨j, _⟩` contradicts `j ≤ jj`.
      exfalso
      have : jj < (⟨j, hj⟩ : Fin 14) := hmono.lt_iff_lt.mp hbefore
      have : jj.val < j := this
      omega
    · exfalso
      have : jj < (⟨j, hj⟩ : Fin 14) := hmono.lt_iff_lt.mp hbefore
      have : jj.val < j := this
      omega
    · -- strictly above this boundary: move to the next index.
      have hne : j ≠ jj.val := by
        intro he
        by_cases h13 : j = 13
        · exact hlast ⟨h13, by
            have : jj = ⟨13, by omega⟩ := by
              apply Fin.ext
              show jj.val = 13
              omega
            rw [this]⟩
        · exact heq (by
            have : jj = ⟨j, hj⟩ := by
              apply Fin.ext
              exact he.symm
            rw [this])
      exact ih (j + 1) (by omega) (by omega)

/-- A timestamp exactly on boundary `jj` is counted into bucket `jj` and
nothing else. -/
lemma checkRequest_eq_single (times : Fin 14 → Int) (hmono : StrictMono times)
    (jj : Fin 14) : checkRequest times (times jj) = [jj] :=
  checkFromAux_eq_single times hmono jj 14 0 (by omega) (Nat.zero_le _)

/-- C9: in every aggregation the unique counter of bucket `j` equals the
number of distinct caller addresses among the occurrences counted into
bucket `j`, and in particular never exceeds the bucket's total counter. -/
theorem ChartData_unique_counts_distinct (nowSec offSec : Int)
    (reqs : List apiRequest) (j : Fin 14) :
    (aggregate (chartTimes (goToday nowSec offSec)) reqs).unique j
      = ((occurrences (chartTimes (goToday nowSec offSec)) reqs j).map
          (fun r => r.RemoteAddr)).toFinset.card ∧
    (aggregate (chartTimes (goToday nowSec offSec)) reqs).unique j
      ≤ (aggregate (chartTimes (goToday nowSec offSec)) reqs).total j := by
  obtain ⟨ht, hi, hu⟩ := aggregate_spec (chartTimes (goToday nowSec offSec)) reqs
  have he : (aggregate (chartTimes (goToday nowSec offSec)) reqs).unique j
      = ((occurrences (chartTimes (goToday nowSec offSec)) reqs j).map
          (fun r => r.RemoteAddr)).toFinset.card := by
    rw [hu j, hi j]
  refine ⟨he, ?_⟩
  rw [he, ht j]
  calc ((occurrences (chartTimes (goToday nowSec offSec)) reqs j).map
          (fun r => r.RemoteAddr)).toFinset.card
      ≤ ((occurrences (chartTimes (goToday nowSec offSec)) reqs j).map
          (fun r => r.RemoteAddr)).length := List.toFinset_card_le _
    _ = (occurrences (chartTimes (goToday nowSec offSec)) reqs j).length :=
        List.length_map _ _

/-- A midnight record is counted into its own day's bucket and no other. -/
lemma hitsOf_midnightRequest (today : Int) (addrs : Fin 14 → String) (i : Fin 14) :
    hitsOf (chartTimes today) (midnightRequest today addrs i) = [i] := by
  have hts : tsOf (midnightRequest today addrs i) = chartTimes today i := by
    simp only [tsOf, midnightRequest]
    exact Int.mul_tdiv_cancel _ (by norm_num)
  rw [hitsOf, hts]
  exact checkRequest_eq_single (chartTimes today) (chartTimes_strictMono today) i

/-- C6: if the persisted records are one per day, each timed exactly at the
UTC midnight boundary of one of the 14 window days and each from a distinct
caller, then every bucket of the report ends with `total[j] = 1` and
`unique[j] = 1`, in oldest-to-newest order (`j = 0` is the oldest day). -/
theorem ChartData_midnight_all_ones (today : Int) (addrs : Fin 14 → String)
    (hinj : Function.Injective addrs) (j : Fin 14) :
    (aggregate (chartTimes today) (midnightRequests today addrs)).total j = 1 ∧
    (aggregate (chartTimes today) (midnightRequests today addrs)).unique j = 1 := by
  have hocc : occurrences (chartTimes today) (midnightRequests today addrs) j
      = [midnightRequest today addrs j] := by
    rw [occurrences, midnightRequests, List.filter_map]
    have hp : ∀ i ∈ List.finRange 14,
        ((fun r => decide (j ∈ hitsOf (chartTimes today) r))
            ∘ midnightRequest today addrs) i
          = decide (j = i) := by
      intro i _
      simp only [Function.comp_apply, hitsOf_midnightRequest]
      exact decide_eq_decide.mpr (by simp)
    rw [List.filter_congr hp]
    have hfr : (List.finRange 14).filter (fun i => decide (j = i)) = [j] := by
      fin_cases j <;> decide
    rw [hfr]
    simp
  obtain ⟨ht, hi, hu⟩ := aggregate_spec (chartTimes today) (midnightRequests today addrs)
  refine ⟨?_, ?_⟩
  · rw [ht j, hocc]
    simp
  · rw [hu j, hi j, hocc]
    simp

/-- Witness for C6 at `today = 1970-01-14`, addresses `0`, …, `13`,
checked at the middle bucket. -/
theorem ChartData_midnight_all_ones_w :
    (aggregate (chartTimes 1123200)
        (midnightRequests 1123200 (fun j => toString j.val))).total 5 = 1 ∧
    (aggregate (chartTimes 1123200)
        (midnightRequests 1123200 (fun j => toString j.val))).unique 5 = 1 :=
  ChartData_midnight_all_ones 1123200 (fun j => toString j.val) (by decide) 5

/-- C4 amended: every successful `ChartData` result is built around
`today` = 00:00 UTC of the current instant's LOCAL calendar date
(`goToday`): the 14 day boundaries step by exactly 86400 s, oldest first,
ending at `today`; the 14 returned labels are the `MM/DD` renderings of the
boundaries in the same oldest-to-newest order; and the `from`/`to` fields
are the first (oldest) and last (newest) label. -/
theorem ChartData_window_structure (nowSec offSec : Int)
    (view : Except String (List (Option apiRequest)))
    (marshal : List Nat → Except String String) (r : ChartResult)
    (h : ChartData nowSec offSec view marshal = Except.ok r) :
    r.dates = List.ofFn (chartDates (goToday nowSec offSec)) ∧
    r.dates.length = 14 ∧
    (∀ j : Fin 13, chartTimes (goToday nowSec offSec) j.succ
        = chartTimes (goToday nowSec offSec) j.castSucc + 86400) ∧
    chartTimes (goToday nowSec offSec) 13 = goToday nowSec offSec ∧
    r.fromLabel = chartDates (goToday nowSec offSec) 0 ∧
    r.toLabel = chartDates (goToday nowSec offSec) 13 ∧
    r.dates.head? = some r.fromLabel ∧
    r.dates.getLast? = some r.toLabel := by
  have hstep : ∀ j : Fin 13, chartTimes (goToday nowSec offSec) j.succ
      = chartTimes (goToday nowSec offSec) j.castSucc + 86400 := by
    intro j
    simp only [chartTimes, Fin.val_succ, Fin.coe_castSucc]
    push_cast
    ring
  have hlast : chartTimes (goToday nowSec offSec) 13 = goToday nowSec offSec := by
    have hv : (((13 : Fin 14)).val : Int) = 13 := by decide
    simp only [chartTimes, hv]
    ring
  rcases view with e | entries
  · exfalso
    simp [ChartData] at h
  · simp only [ChartData] at h
    split at h
    · exact absurd h (by simp)
    · split at h
      · exact absurd h (by simp)
      · injection h with h2
        subst h2
        refine ⟨rfl, by simp, hstep, hlast, rfl, rfl, ?_, ?_⟩
        · rw [List.ofFn_succ]
          rfl
        · rw [List.getLast?_eq_getElem?, List.length_ofFn, List.getElem?_ofFn]
          rfl

/-- Witness for C4 at `now = 1970-01-14 00:00 UTC`, zone UTC, empty store. -/
theorem ChartData_window_structure_w :
    sampleChart.dates.length = 14 ∧
    sampleChart.dates.head? = some sampleChart.fromLabel ∧
    sampleChart.dates.getLast? = some sampleChart.toLabel := by
  have h := ChartData_window_structure 1123200 0 (Except.ok []) renderCounts
    sampleChart (by rfl)
  exact ⟨h.2.1, h.2.2.2.2.2.2.1, h.2.2.2.2.2.2.2⟩

/-- C7: an undecodable stored value is skipped and the scan continues: the
report over a store with a bad entry anywhere between the good ones equals
the report over the store without it, and in particular the read and the
whole `ChartData` call still succeed exactly as before — a decode failure
never aborts them (the `ForEach` callback logs and returns `nil`,
init.go:146-149). -/
theorem ChartData_skips_undecodable (nowSec offSec : Int)
    (pre post : List (Option apiRequest))
    (marshal : List Nat → Except String String) :
    ChartData nowSec offSec (Except.ok (pre ++ none :: post)) marshal
      = ChartData nowSec offSec (Except.ok (pre ++ post)) marshal := by
  simp [ChartData, List.filterMap_append]

/-- C8: a `ChartData` call either fails with an error and no result, or
succeeds with a complete result: 14 date labels, and `unique`/`total`
fields that are the successful encodings of 14-entry counter series.
No partial result accompanies an error (every error path returns
`nil, err`, init.go:161-163 and 225-233). -/
theorem ChartData_complete_or_error (nowSec offSec : Int)
    (view : Except String (List (Option apiRequest)))
    (marshal : List Nat → Except String String) :
    (∃ e, ChartData nowSec offSec view marshal = Except.error e) ∨
    (∃ r, ChartData nowSec offSec view marshal = Except.ok r ∧
      r.dates.length = 14 ∧
      (∃ lu, lu.length = 14 ∧ marshal lu = Except.ok r.unique) ∧
      (∃ lt2, lt2.length = 14 ∧ marshal lt2 = Except.ok r.total)) := by
  rcases view with e | entries
  · exact Or.inl ⟨e, by simp [ChartData]⟩
  · simp only [ChartData]
    cases hu : marshal (List.ofFn fun j =>
        (aggregate (chartTimes (goToday nowSec offSec))
          (List.filterMap id entries)).unique j) with
    | error e =>
      exact Or.inl ⟨e, rfl⟩
    | ok jsU =>
      cases ht2 : marshal (List.ofFn fun j =>
          (aggregate (chartTimes (goToday nowSec offSec))
            (List.filterMap id entries)).total j) with
      | error e =>
        exact Or.inl ⟨e, rfl⟩
      | ok jsT =>
        refine Or.inr ⟨_, rfl, ?_, ⟨_, ?_, hu⟩, ⟨_, ?_, ht2⟩⟩
        · simp
        · simp
        · simp

